import Mathlib

/-!
Shallow embedding of `marketing/generator.py`: a single-pass batch generator
that loads a YAML configuration, applies dotted-path command-line overrides,
and renders Jinja2 templates into an output directory.

Library behaviour that the script relies on (`urllib.parse`, `pathlib`,
Python `dict` and `str` operations) is modelled explicitly, translated from
the CPython 3.11 standard library.  External collaborators that cannot be
embedded (the YAML parser, the Jinja2 render step, the filesystem) appear as
explicit inputs to the modelled functions: the YAML parse result is passed as
a value, the Jinja2 renderer as a function-valued oracle, and directory trees
as lists of regular-file paths.
-/

/- ------------------------------------------------------------------ -/
/- Python string primitives                                           -/
/- ------------------------------------------------------------------ -/

/-- Whitespace stripped by Python `str.strip()` (its ASCII part; the Unicode
space characters Python additionally strips are not modelled). -/
def isPySpace (c : Char) : Bool :=
  c = ' ' || c = '\t' || c = '\n' || c = '\r' || c = '\x0b' || c = '\x0c'

/-- `str.isdigit` restricted to ASCII decimal digits (Python also accepts
other Unicode digit characters; they are not modelled). -/
def isPyDigit (c : Char) : Bool := c.isDigit

def strOfList (l : List Char) : String := ⟨l⟩

/-- Python `s.strip()` on a character list.  Implemented as: drop the
trailing whitespace run, then the leading one (the two runs do not overlap
except when the whole string is whitespace, where both orders give `[]`). -/
def pyStripL (l : List Char) : List Char :=
  ((l.reverse.dropWhile isPySpace).reverse).dropWhile isPySpace

def pyStrip (s : String) : String := strOfList (pyStripL s.data)

/-- Python `s.split(sep)` for a one-character separator: splits on every
occurrence, always returns a non-empty list, `"".split(sep) == [""]`. -/
def pySplitOn (sep : Char) : List Char → List (List Char)
  | [] => [[]]
  | c :: rest =>
    let r := pySplitOn sep rest
    if c = sep then [] :: r
    else
      match r with
      | h :: t => (c :: h) :: t
      | [] => [[c]]

def pySplit (s : String) (sep : Char) : List String :=
  (pySplitOn sep s.data).map strOfList

/-- Python `s.split(sep, 1)` restricted to the case where `sep` occurs:
the text before and after the first occurrence. -/
def splitFirst (sep : Char) : List Char → Option (List Char × List Char)
  | [] => none
  | c :: rest =>
    if c = sep then some ([], rest)
    else
      match splitFirst sep rest with
      | some (a, b) => some (c :: a, b)
      | none => none

/- ------------------------------------------------------------------ -/
/- Python `dict` as an insertion-ordered association list             -/
/- ------------------------------------------------------------------ -/

/-- Python `d[k] = v`: if the key is present, its value is replaced and its
position kept; otherwise the pair is appended at the end. -/
def dictInsert (m : List (String × α)) (k : String) (v : α) : List (String × α) :=
  match m with
  | [] => [(k, v)]
  | (k', v') :: rest =>
    if k' = k then (k, v) :: rest else (k', v') :: dictInsert rest k v

/-- Python `d.get(k)` / `k in d`. -/
def dictLookup (m : List (String × α)) (k : String) : Option α :=
  match m with
  | [] => none
  | (k', v') :: rest => if k' = k then some v' else dictLookup rest k

/-- Iterated assignment of a pair list into a dict, modelling both
`dict(pairs)` and the `{**d, **pairs}` overlay. -/
def dictInsertAll (m : List (String × α)) (ps : List (String × α)) : List (String × α) :=
  ps.foldl (fun d p => dictInsert d p.1 p.2) m

/-- The value the Python `dict` built from `ps` holds at `k`: the last value
written for `k`, if any. -/
def lastVal (ps : List (String × α)) (k : String) : Option α :=
  ps.foldl (fun acc p => if p.1 = k then some p.2 else acc) none

/-- Left-biased choice on `Option` (used to state dict-overlay lookups). -/
def orElseO (a b : Option α) : Option α :=
  match a with
  | some v => some v
  | none => b

/- ------------------------------------------------------------------ -/
/- YAML values (the configuration tree)                               -/
/- ------------------------------------------------------------------ -/

/-- Values `yaml.safe_load` can produce for this system's configuration
files: scalars, sequences and string-keyed nested mappings (the spec's data
model; non-string mapping keys are out of scope). -/
inductive Yaml where
  | null
  | bool (b : Bool)
  | int (n : Int)
  | str (s : String)
  | seq (xs : List Yaml)
  | map (m : List (String × Yaml))

/-- Python truthiness of a loaded YAML value. -/
def pyTruthy : Yaml → Bool
  | Yaml.null => false
  | Yaml.bool b => b
  | Yaml.int n => !(n == 0)
  | Yaml.str s => !(s == "")
  | Yaml.seq xs => !xs.isEmpty
  | Yaml.map m => !m.isEmpty

def isMap : Yaml → Bool
  | Yaml.map _ => true
  | _ => false

/-- `load_yaml` (generator.py): `yaml.safe_load(f) or {}`.  The YAML parse
itself is an external collaborator; `doc` is the value `safe_load` returned
for the file's contents (`Yaml.null` for an empty or absent document). -/
def load_yaml (doc : Yaml) : Yaml :=
  if pyTruthy doc then doc else Yaml.map []

/- ------------------------------------------------------------------ -/
/- set_deep_value / apply_overrides                                   -/
/- ------------------------------------------------------------------ -/

/-- The loop of `set_deep_value` (generator.py) over the already-split
segment list: walk `parts[:-1]`, replacing a missing or non-mapping
intermediate by a fresh empty mapping, then assign the last segment.  The
in-place mutation of the Python version is modelled by rebuilding the
spine.  `parts = []` cannot arise (`str.split` never returns `[]`). -/
def setDeepGo (target : List (String × Yaml)) (parts : List String) (value : String) :
    List (String × Yaml) :=
  match parts with
  | [] => target
  | [k] => dictInsert target k (Yaml.str value)
  | k :: rest =>
    let sub :=
      match dictLookup target k with
      | some (Yaml.map m) => m
      | _ => []
    dictInsert target k (Yaml.map (setDeepGo sub rest value))

/-- `set_deep_value` (generator.py). -/
def set_deep_value (target : List (String × Yaml)) (dottedPath : String) (value : String) :
    List (String × Yaml) :=
  setDeepGo target (pySplit dottedPath '.') value

/-- One iteration of the `apply_overrides` loop (generator.py): an entry
without `=` is skipped, otherwise the left-hand side is stripped and used as
the dotted path, the right-hand side taken verbatim. -/
def applyOverrideStep (acc : List (String × Yaml)) (item : String) :
    List (String × Yaml) :=
  if item.data.contains '=' then
    match splitFirst '=' item.data with
    | some (path, value) =>
      set_deep_value acc (pyStrip (strOfList path)) (strOfList value)
    | none => acc
  else acc

/-- `apply_overrides` (generator.py). -/
def apply_overrides (data : List (String × Yaml)) (overrides : List String) :
    List (String × Yaml) :=
  overrides.foldl applyOverrideStep data

/-- The dotted path an override entry writes to, when it has a `=`
(verification helper: mirrors the path computation of `apply_overrides`). -/
def overridePath (item : String) : Option (List String) :=
  if item.data.contains '=' then
    match splitFirst '=' item.data with
    | some (path, _) => some (pySplit (pyStrip (strOfList path)) '.')
    | none => none
  else none

/-- Read back a dotted path from a configuration tree (verification helper,
not taken from the source). -/
def getPath (m : List (String × Yaml)) : List String → Option Yaml
  | [] => some (Yaml.map m)
  | [k] => dictLookup m k
  | k :: rest =>
    match dictLookup m k with
    | some (Yaml.map m') => getPath m' rest
    | _ => none

/-- Two dotted paths diverge when at some depth both are defined and name
different keys; equivalently, neither is a prefix of the other. -/
def pathDiverges : List String → List String → Bool
  | a :: as, b :: bs => if a = b then pathDiverges as bs else true
  | _, _ => false

/- ------------------------------------------------------------------ -/
/- pathlib (POSIX, relative normalized paths)                         -/
/- ------------------------------------------------------------------ -/

/-- Index of the last occurrence of `c` in `l` (Python `str.rfind`). -/
def rfindIdx (c : Char) (l : List Char) : Option Nat :=
  match List.findIdx? (fun x => x = c) l.reverse with
  | some j => some (l.length - 1 - j)
  | none => none

/-- The final component of a relative POSIX path (`PurePath.name`).  Paths
are modelled as already-normalized relative path strings with `/` as
separator and no trailing slash. -/
def pathNameL (p : List Char) : List Char :=
  (p.reverse.takeWhile (fun c => c ≠ '/')).reverse

/-- `PurePath.suffix` of a file name: the part from the last `.` on, but
only when that dot is neither the first nor the last character of the name
(so the dotfile `".j2"` and the name `"x."` have no suffix). -/
def pySuffixL (name : List Char) : List Char :=
  match rfindIdx '.' name with
  | some i => if 0 < i ∧ i < name.length - 1 then name.drop i else []
  | none => []

/-- `PurePath.suffix` of a path. -/
def pathSuffix (p : String) : String := strOfList (pySuffixL (pathNameL p.data))

/-- `name` with its pathlib suffix removed (`with_suffix("")` on the final
component). -/
def stripNameSuffix (name : List Char) : List Char :=
  name.take (name.length - (pySuffixL name).length)

/-- `PurePath.with_suffix("")`: strip the suffix of the final component,
keeping the directory part. -/
def withSuffixEmpty (p : String) : String :=
  match rfindIdx '/' p.data with
  | some i => strOfList (p.data.take (i + 1) ++ stripNameSuffix (p.data.drop (i + 1)))
  | none => strOfList (stripNameSuffix p.data)

/-- `target_path_for` (generator.py): `out_dir / template_rel_path.with_suffix("")`,
for a relative template path and an output root without trailing slash. -/
def target_path_for (templateRelPath : String) (outDir : String) : String :=
  outDir ++ "/" ++ withSuffixEmpty templateRelPath

/- ------------------------------------------------------------------ -/
/- Template discovery and rendering                                   -/
/- ------------------------------------------------------------------ -/

/-- Strict code-point-lexicographic comparison of character lists:
Python `str` `<`. -/
def listCharLt : List Char → List Char → Bool
  | [], [] => false
  | [], _ :: _ => true
  | _ :: _, [] => false
  | a :: as, b :: bs =>
    if a < b then true
    else if b < a then false
    else listCharLt as bs

/-- Python list `<=` over strings: lexicographic, elements compared as
`str`.  CPython 3.11 `PurePath.__lt__` compares `_cparts`, the list of
path components (`casefold_parts` is the identity on POSIX), with exactly
this list order. -/
def partsLe : List String → List String → Bool
  | [], _ => true
  | _ :: _, [] => false
  | a :: as, b :: bs =>
    if listCharLt a.data b.data then true
    else if listCharLt b.data a.data then false
    else partsLe as bs

/-- The order `sorted()` uses on CPython 3.11 `PurePosixPath` objects:
compare the component tuples.  For the normalized relative paths modelled
here the components are the `/`-separated pieces of the path string (so
e.g. `emails/welcome.j2` sorts before `emails-v2/promo.j2`, although the
whole path strings compare the other way). -/
def pathLe (a b : String) : Bool := partsLe (pySplit a '/') (pySplit b '/')

/-- Python `sorted` on path objects: the ascending sequence under the
component-tuple order. -/
def sortStrings (l : List String) : List String :=
  List.insertionSort (fun a b => pathLe a b = true) l

/-- `discover_templates` (generator.py):
`sorted(p for p in templates_dir.glob("**/*") if p.is_file() and p.suffix == ".j2")`.
The directory tree is an external input, modelled as the list of relative
paths of the regular files below the template root (the non-file paths
`glob` also yields are dropped by the `is_file()` filter). -/
def discover_templates (files : List String) : List String :=
  sortStrings (files.filter (fun p => pathSuffix p = ".j2"))

/-- `render_all` (generator.py), modulo the external collaborators: the
Jinja2 environment is the oracle `render` mapping a template's relative path
to its rendered text (for the fixed context `{**product_dict}`), and writes
are collected as `(path, contents)` pairs instead of touching a filesystem.
Each write is `output.strip() + "\n"` at
`target_path_for(rel_path, out_dir)`. -/
def render_all (render : String → String) (files : List String) (outDir : String) :
    List (String × String) :=
  (discover_templates files).foldl
    (fun written relPath =>
      written ++ [(target_path_for relPath outDir, pyStrip (render relPath) ++ "\n")])
    []

/- ------------------------------------------------------------------ -/
/- to_year                                                            -/
/- ------------------------------------------------------------------ -/

/-- Python values a template can pass to the `year` filter: `date` and
`datetime` instances (fields as numbers; `datetime` is a `date` subclass, so
the code's `isinstance(value, (date, datetime))` covers both), strings,
integers, and `None` for everything falling through to `""`. -/
inductive PyVal where
  | pdate (year month day : Nat)
  | pdatetime (year month day hour minute second : Nat)
  | pstr (s : String)
  | pint (n : Int)
  | pnone

/-- `to_year` (generator.py).  The `try/except` wrapper is modelled by
totality: every branch of the source is a total operation, so the function
always returns and defaults to `""`. -/
def to_year : PyVal → String
  | PyVal.pdate y _ _ => toString y
  | PyVal.pdatetime y _ _ _ _ _ => toString y
  | PyVal.pstr s =>
    if 4 ≤ s.data.length ∧ (s.data.take 4).all isPyDigit then
      strOfList (s.data.take 4)
    else ""
  | PyVal.pint _ => ""
  | PyVal.pnone => ""

/- ------------------------------------------------------------------ -/
/- Command-line driver                                                -/
/- ------------------------------------------------------------------ -/

/-- The four argparse inputs of `parse_args` (generator.py). -/
structure Args where
  product : String
  templates : String
  out : String
  overrides : List String

/-- The external state `main` consumes: whether the two required paths
exist, the YAML parse result of the product file, the regular files under
the template root, and the Jinja2 renderer as a deterministic oracle from
render context and template relative path to rendered text. -/
structure World where
  productExists : Bool
  templatesExists : Bool
  productDoc : Yaml
  templateFiles : List String
  render : List (String × Yaml) → String → String

/-- What a run of `main` (generator.py) produces: the exit status, the
messages printed to stderr, and the files written as `(path, contents)`. -/
structure RunResult where
  exitCode : Nat
  errors : List String
  written : List (String × String)

/-- `main` (generator.py).  A `TypeError` raised on a non-mapping
configuration (by `set_deep_value` or by `{**product_dict}` in
`render_all`) is modelled as `Except.error`: the exception propagates and
no exit status is returned. -/
def mainRun (w : World) (args : Args) : Except String RunResult :=
  if w.productExists = false then
    Except.ok ⟨2, ["ERROR: product file not found: " ++ args.product], []⟩
  else if w.templatesExists = false then
    Except.ok ⟨2, ["ERROR: templates dir not found: " ++ args.templates], []⟩
  else
    match load_yaml w.productDoc with
    | Yaml.map m =>
      let data := apply_overrides m args.overrides
      Except.ok ⟨0, [], render_all (w.render data) w.templateFiles args.out⟩
    | _ => Except.error "TypeError: non-mapping configuration"

/- ------------------------------------------------------------------ -/
/- urllib.parse: splitting and unsplitting                            -/
/- ------------------------------------------------------------------ -/

/-- `urllib.parse.SplitResult` (the five components of `urlsplit`). -/
structure SplitResult where
  scheme : String
  netloc : String
  path : String
  query : String
  fragment : String

/-- `urllib.parse.ParseResult` (the six components of `urlparse`). -/
structure ParseResult where
  scheme : String
  netloc : String
  path : String
  params : String
  query : String
  fragment : String

/-- `urllib.parse.scheme_chars`. -/
def isSchemeChar (c : Char) : Bool :=
  c.isAlpha || c.isDigit || c = '+' || c = '-' || c = '.'

/-- `urllib.parse.uses_params`. -/
def uses_params : List String :=
  ["", "ftp", "hdl", "prospero", "http", "imap", "https", "shttp", "rtsp",
   "rtsps", "rtspu", "sip", "sips", "mms", "sftp", "tel"]

/-- `urllib.parse.uses_netloc`. -/
def uses_netloc : List String :=
  ["", "ftp", "http", "gopher", "nntp", "telnet", "imap", "wais", "file",
   "mms", "https", "shttp", "snews", "prospero", "rtsp", "rtsps", "rtspu",
   "rsync", "svn", "svn+ssh", "sftp", "nfs", "git", "git+ssh", "ws", "wss"]

/-- Hex digits, as in `ipaddress._BaseV6._HEX_DIGITS`. -/
def isHexChar (c : Char) : Bool :=
  c.isDigit || (decide ('a' ≤ c) && decide (c ≤ 'f')) ||
    (decide ('A' ≤ c) && decide (c ≤ 'F'))

/-- `ipaddress._BaseV4._parse_octet` (CPython 3.11) as a validity test:
one to three ASCII digits, no leading zero unless the octet is exactly
`"0"`, value at most 255. -/
def validOctet (s : List Char) : Bool :=
  decide (s ≠ []) && s.all Char.isDigit && decide (s.length ≤ 3) &&
    (decide (s.head? ≠ some '0') || decide (s = ['0'])) &&
    decide (s.foldl (fun a c => a * 10 + (c.toNat - 48)) 0 ≤ 255)

/-- `ipaddress._BaseV4._ip_int_from_string` as a validity test: exactly
four valid octets separated by dots. -/
def validIPv4 (s : List Char) : Bool :=
  let octets := pySplitOn '.' s
  decide (octets.length = 4) && octets.all validOctet

/-- `ipaddress._BaseV6._parse_hextet` as a validity test: one to four hex
digits. -/
def validHextet (s : List Char) : Bool :=
  decide (s ≠ []) && s.all isHexChar && decide (s.length ≤ 4)

/-- `ipaddress._BaseV6._ip_int_from_string` (CPython 3.11) as a validity
test, branch for branch: split on `:`, at least 3 parts; an IPv4-style
last part must be a valid IPvv4 address and is replaced by two hextets
(the replacement parts are always valid non-empty hextets, so two
placeholder hextets preserve every later check, which only looks at part
counts, emptiness and hextet validity); at most 9 parts; at most one empty
interior part (the `::` skip); a leading or trailing empty part only as
part of `::`; with a skip at least one part skipped, without one exactly 8
parts; every consumed part a valid hextet. -/
def validIPv6NoScope (s : List Char) : Bool :=
  if s.isEmpty then false
  else
    let parts0 := pySplitOn ':' s
    if decide (parts0.length < 3) then false
    else
      let lastPart := (parts0.getLast?).getD []
      let hasV4 := lastPart.contains '.'
      if hasV4 && !(validIPv4 lastPart) then false
      else
        let parts := if hasV4 then parts0.dropLast ++ [['0'], ['0']] else parts0
        if decide (9 < parts.length) then false
        else
          let interior := (parts.drop 1).dropLast
          let empties := (interior.filter (fun p => p.isEmpty)).length
          if decide (2 ≤ empties) then false
          else
            let firstEmpty := (parts.headD ['x']).isEmpty
            let lastEmpty := ((parts.getLast?).getD ['x']).isEmpty
            if decide (empties = 1) then
              let skipIdx := 1 + interior.findIdx (fun p => p.isEmpty)
              let partsHi := if firstEmpty then skipIdx - 1 else skipIdx
              let partsLo0 := parts.length - skipIdx - 1
              let partsLo := if lastEmpty then partsLo0 - 1 else partsLo0
              if firstEmpty && decide (skipIdx ≠ 1) then false
              else if lastEmpty && decide (partsLo0 ≠ 1) then false
              else if decide (7 < partsHi + partsLo) then false
              else
                (parts.take partsHi).all validHextet &&
                  (parts.drop (parts.length - partsLo)).all validHextet
            else
              decide (parts.length = 8) && !firstEmpty && !lastEmpty &&
                parts.all validHextet

/-- `ipaddress.IPv6Address` on a string (CPython 3.11) as a validity test:
an optional `%scope_id` (non-empty, itself `%`-free) split off first, then
the address proper.  (`/` cannot occur: the netloc ends at the first `/`.) -/
def validIPv6Bracket (s : List Char) : Bool :=
  match splitFirst '%' s with
  | none => validIPv6NoScope s
  | some (addr, scope) =>
    !scope.isEmpty && !(scope.contains '%') && validIPv6NoScope addr

/-- `urllib.parse._check_bracketed_host` (CPython 3.11) as a validity
test: a host starting with `v` must match `v[0-9a-fA-F]+\..+` (IPvFuture);
otherwise `ipaddress.ip_address` must succeed and not produce an IPv4
address, i.e. the host must be a valid IPv6 address. -/
def checkBracketedHost : List Char → Bool
  | 'v' :: rest =>
    let hexRun := rest.takeWhile isHexChar
    let after := rest.dropWhile isHexChar
    !hexRun.isEmpty &&
      (match after with
       | '.' :: tail => !tail.isEmpty
       | _ => false)
  | h => !(validIPv4 h) && validIPv6Bracket h

/-- `netloc.partition('[')[2].partition(']')[0]`: the text between the
first `[` and the next `]` (everything after `[` when no `]` follows). -/
def bracketedHost (netloc : List Char) : List Char :=
  match splitFirst '[' netloc with
  | none => []
  | some (_, after) =>
    match splitFirst ']' after with
    | none => after
    | some (inner, _) => inner

/-- The code points whose NFKC normalization contains one of the
delimiters `/?#@:` (Unicode 14.0, as shipped with CPython 3.11).
`_checknetloc` raises exactly when the netloc contains one of these:
the delimiters themselves cannot occur in a netloc (it ends at `/?#`,
and `@:` are removed before the check), ASCII is NFKC-stable, and
canonical composition never creates an ASCII delimiter, so the raise
condition reduces to this per-character membership test. -/
def nfkcDelimCodepoints : List Nat :=
  [0x2047, 0x2048, 0x2049, 0x2100, 0x2101, 0x2105, 0x2106, 0x2A74,
   0xFE13, 0xFE16, 0xFE55, 0xFE56, 0xFE5F, 0xFE6B,
   0xFF03, 0xFF0F, 0xFF1A, 0xFF1F, 0xFF20]

/-- `urllib.parse._checknetloc` (CPython 3.11) as a validity test. -/
def checknetlocOk (netloc : List Char) : Bool :=
  netloc.all (fun c => !(nfkcDelimCodepoints.contains c.toNat))

/-- `urllib.parse.urlsplit` (CPython 3.11) with `scheme=''` and
`allow_fragments=True` as at the `with_utm` call site: strip leading
C0-control/space, remove tab/CR/LF, detect the scheme, split off the
netloc after `//` (raising for unbalanced IPv6 brackets or an invalid
bracketed host), then the fragment, then the query, then run the NFKC
netloc check.  A raised `ValueError` is modelled as `Except.error`; the
error strings abbreviate CPython's messages. -/
def urlsplitL (url0 : List Char) : Except String SplitResult :=
  let url1 := url0.dropWhile (fun c => c.toNat ≤ 0x20)
  let url2 := url1.filter (fun c => !(c = '\t' || c = '\r' || c = '\n'))
  let schemeUrl :=
    match splitFirst ':' url2 with
    | some (before, after) =>
      if before ≠ [] ∧ (before.headD ' ').isAlpha ∧ before.all isSchemeChar then
        (before.map Char.toLower, after)
      else (([] : List Char), url2)
    | none => (([] : List Char), url2)
  let scheme := schemeUrl.1
  let urlA := schemeUrl.2
  let netlocUrl :=
    if urlA.take 2 = ['/', '/'] then
      ((urlA.drop 2).takeWhile (fun c => !(c = '/' || c = '?' || c = '#')),
       (urlA.drop 2).dropWhile (fun c => !(c = '/' || c = '?' || c = '#')))
    else (([] : List Char), urlA)
  let netloc := netlocUrl.1
  let urlB := netlocUrl.2
  if (netloc.contains '[' && !(netloc.contains ']')) ||
      (netloc.contains ']' && !(netloc.contains '[')) then
    Except.error "Invalid IPv6 URL"
  else if netloc.contains '[' && netloc.contains ']' &&
      !(checkBracketedHost (bracketedHost netloc)) then
    Except.error "invalid bracketed host"
  else
    let urlFrag :=
      match splitFirst '#' urlB with
      | some (a, b) => (a, b)
      | none => (urlB, ([] : List Char))
    let urlQuery :=
      match splitFirst '?' urlFrag.1 with
      | some (a, b) => (a, b)
      | none => (urlFrag.1, ([] : List Char))
    if !(checknetlocOk netloc) then
      Except.error "netloc contains invalid characters under NFKC normalization"
    else
      Except.ok ⟨strOfList scheme, strOfList netloc, strOfList urlQuery.1,
        strOfList urlQuery.2, strOfList urlFrag.2⟩

/-- `urllib.parse._splitparams`, called only when `;` occurs in the path:
with a `/` present the search for `;` starts at the last `/`. -/
def splitparamsL (url : List Char) : List Char × List Char :=
  if url.contains '/' then
    match rfindIdx '/' url with
    | some j =>
      match splitFirst ';' (url.drop j) with
      | some (a, b) => (url.take j ++ a, b)
      | none => (url, [])
    | none => (url, [])
  else
    match splitFirst ';' url with
    | some (a, b) => (a, b)
    | none => (url, [])

/-- `urllib.parse.urlparse` with default `scheme=''`, `allow_fragments=True`;
`urlsplit`'s `ValueError` propagates. -/
def urlparse (url : String) : Except String ParseResult :=
  match urlsplitL url.data with
  | Except.error e => Except.error e
  | Except.ok s =>
    let pathParams :=
      if s.scheme ∈ uses_params ∧ s.path.data.contains ';' then
        splitparamsL s.path.data
      else (s.path.data, ([] : List Char))
    Except.ok ⟨s.scheme, s.netloc, strOfList pathParams.1, strOfList pathParams.2,
      s.query, s.fragment⟩

/-- `urllib.parse.urlunsplit`. -/
def urlunsplit (scheme netloc url query fragment : String) : String :=
  let url1 :=
    if netloc ≠ "" ∨ (scheme ≠ "" ∧ scheme ∈ uses_netloc ∧ url.data.take 2 ≠ ['/', '/']) then
      let url' := if url ≠ "" ∧ url.data.take 1 ≠ ['/'] then "/" ++ url else url
      "//" ++ netloc ++ url'
    else url
  let url2 := if scheme ≠ "" then scheme ++ ":" ++ url1 else url1
  let url3 := if query ≠ "" then url2 ++ "?" ++ query else url2
  if fragment ≠ "" then url3 ++ "#" ++ fragment else url3

/-- `urllib.parse.urlunparse`. -/
def urlunparse (p : ParseResult) : String :=
  let url := if p.params ≠ "" then p.path ++ ";" ++ p.params else p.path
  urlunsplit p.scheme p.netloc url p.query p.fragment

/- ------------------------------------------------------------------ -/
/- urllib.parse: percent-encoding                                     -/
/- ------------------------------------------------------------------ -/

/-- UTF-8 encoding of one scalar value (`str.encode("utf-8")`, per char). -/
def utf8EncodeChar (c : Char) : List Nat :=
  let n := c.toNat
  if n < 0x80 then [n]
  else if n < 0x800 then [0xC0 + n / 0x40, 0x80 + n % 0x40]
  else if n < 0x10000 then
    [0xE0 + n / 0x1000, 0x80 + (n / 0x40) % 0x40, 0x80 + n % 0x40]
  else
    [0xF0 + n / 0x40000, 0x80 + (n / 0x1000) % 0x40, 0x80 + (n / 0x40) % 0x40,
     0x80 + n % 0x40]

def utf8Encode (l : List Char) : List Nat := (l.map utf8EncodeChar).flatten

/-- `urllib.parse._ALWAYS_SAFE`: ASCII letters, digits, `_.-~`. -/
def isAlwaysSafeByte (b : Nat) : Bool :=
  decide ((0x41 ≤ b ∧ b ≤ 0x5A) ∨ (0x61 ≤ b ∧ b ≤ 0x7A) ∨ (0x30 ≤ b ∧ b ≤ 0x39) ∨
    b = 0x5F ∨ b = 0x2E ∨ b = 0x2D ∨ b = 0x7E)

def hexDigitUpper (n : Nat) : Char :=
  if n < 10 then Char.ofNat (48 + n) else Char.ofNat (65 + n - 10)

/-- One byte under `quote_from_bytes`: kept when in the always-safe set or
the call's extra safe set, else `%XX` with uppercase hex. -/
def quoteByte (safe : List Nat) (b : Nat) : List Char :=
  if isAlwaysSafeByte b || safe.contains b then [Char.ofNat b]
  else ['%', hexDigitUpper (b / 16), hexDigitUpper (b % 16)]

/-- `urllib.parse.quote_from_bytes` (its all-safe fast path returns the
same characters as the per-byte map). -/
def quote_from_bytes (bs : List Nat) (safe : List Nat) : List Char :=
  (bs.map (quoteByte safe)).flatten

/-- `urllib.parse.quote` on a `str`, with the safe set given as bytes. -/
def quote (s : String) (safe : List Nat) : String :=
  if s = "" then s else strOfList (quote_from_bytes (utf8Encode s.data) safe)

/-- `urllib.parse.quote_plus` with `safe=''` (the `urlencode` default):
when the string has a space, quote with space safe and then turn the
spaces into `+`. -/
def quote_plus (s : String) : String :=
  if !(s.data.contains ' ') then quote s []
  else strOfList ((quote s [0x20]).data.map (fun c => if c = ' ' then '+' else c))

def hexVal (c : Char) : Option Nat :=
  if '0' ≤ c ∧ c ≤ '9' then some (c.toNat - 48)
  else if 'a' ≤ c ∧ c ≤ 'f' then some (c.toNat - 97 + 10)
  else if 'A' ≤ c ∧ c ≤ 'F' then some (c.toNat - 65 + 10)
  else none

/-- `urllib.parse.unquote_to_bytes` on an ASCII chunk: a `%` followed by
two hex digits becomes that byte, any other `%` stays literal.  (The
source splits on `%` and joins; byte-for-byte the same result.) -/
def unquote_to_bytes : List Char → List Nat
  | [] => []
  | '%' :: c1 :: c2 :: rest =>
    match hexVal c1, hexVal c2 with
    | some h1, some h2 => (h1 * 16 + h2) :: unquote_to_bytes rest
    | _, _ => 37 :: unquote_to_bytes (c1 :: c2 :: rest)
  | '%' :: rest => 37 :: unquote_to_bytes rest
  | c :: rest => c.toNat :: unquote_to_bytes rest

def replChar : Char := Char.ofNat 0xFFFD

def isContByte (b : Nat) : Bool := decide (0x80 ≤ b ∧ b ≤ 0xBF)

/-- Valid second byte of a three-byte UTF-8 sequence headed by `b`. -/
def cont1ok3 (b b2 : Nat) : Bool :=
  if b = 0xE0 then decide (0xA0 ≤ b2 ∧ b2 ≤ 0xBF)
  else if b = 0xED then decide (0x80 ≤ b2 ∧ b2 ≤ 0x9F)
  else isContByte b2

/-- Valid second byte of a four-byte UTF-8 sequence headed by `b`. -/
def cont1ok4 (b b2 : Nat) : Bool :=
  if b = 0xF0 then decide (0x90 ≤ b2 ∧ b2 ≤ 0xBF)
  else if b = 0xF4 then decide (0x80 ≤ b2 ∧ b2 ≤ 0x8F)
  else isContByte b2

/-- `bytes.decode("utf-8", errors="replace")`: the incremental UTF-8
decoder with one U+FFFD per maximal invalid subpart (the policy CPython's
`replace` handler follows). -/
def utf8DecodeReplace : List Nat → List Char
  | [] => []
  | b :: rest =>
    if b < 0x80 then Char.ofNat b :: utf8DecodeReplace rest
    else if 0xC2 ≤ b ∧ b ≤ 0xDF then
      match rest with
      | b2 :: rest2 =>
        if isContByte b2 then
          Char.ofNat ((b - 0xC0) * 0x40 + (b2 - 0x80)) :: utf8DecodeReplace rest2
        else replChar :: utf8DecodeReplace (b2 :: rest2)
      | [] => [replChar]
    else if 0xE0 ≤ b ∧ b ≤ 0xEF then
      match rest with
      | b2 :: rest2 =>
        if cont1ok3 b b2 then
          match rest2 with
          | b3 :: rest3 =>
            if isContByte b3 then
              Char.ofNat ((b - 0xE0) * 0x1000 + (b2 - 0x80) * 0x40 + (b3 - 0x80)) ::
                utf8DecodeReplace rest3
            else replChar :: utf8DecodeReplace (b3 :: rest3)
          | [] => [replChar]
        else replChar :: utf8DecodeReplace (b2 :: rest2)
      | [] => [replChar]
    else if 0xF0 ≤ b ∧ b ≤ 0xF4 then
      match rest with
      | b2 :: rest2 =>
        if cont1ok4 b b2 then
          match rest2 with
          | b3 :: rest3 =>
            if isContByte b3 then
              match rest3 with
              | b4 :: rest4 =>
                if isContByte b4 then
                  Char.ofNat ((b - 0xF0) * 0x40000 + (b2 - 0x80) * 0x1000 +
                    (b3 - 0x80) * 0x40 + (b4 - 0x80)) :: utf8DecodeReplace rest4
                else replChar :: utf8DecodeReplace (b4 :: rest4)
              | [] => [replChar]
            else replChar :: utf8DecodeReplace (b3 :: rest3)
          | [] => [replChar]
        else replChar :: utf8DecodeReplace (b2 :: rest2)
      | [] => [replChar]
    else replChar :: utf8DecodeReplace rest
termination_by l => l.length
decreasing_by all_goals (simp_wf <;> omega)

/-- `urllib.parse.unquote`: non-ASCII characters pass through unchanged,
each maximal ASCII run is percent-decoded to bytes and UTF-8-decoded with
replacement.  `acc` carries the current ASCII run, reversed. -/
def unquoteGo (acc : List Char) : List Char → List Char
  | [] => utf8DecodeReplace (unquote_to_bytes acc.reverse)
  | c :: rest =>
    if c.toNat ≤ 0x7F then unquoteGo (c :: acc) rest
    else
      utf8DecodeReplace (unquote_to_bytes acc.reverse) ++ c :: unquoteGo [] rest

def unquote (s : String) : String :=
  if !(s.data.contains '%') then s
  else strOfList (unquoteGo [] s.data)

/- ------------------------------------------------------------------ -/
/- urllib.parse: query strings, and with_utm                          -/
/- ------------------------------------------------------------------ -/

/-- `urllib.parse.parse_qsl` at its defaults (`keep_blank_values=False`,
`separator='&'`): empty segments and segments without `=` or with an
empty value are skipped; `+` becomes space, then percent-decoding. -/
def parse_qsl (qs : String) : List (String × String) :=
  let pairs := if qs = "" then [] else pySplitOn '&' qs.data
  pairs.filterMap (fun nv =>
    if nv = [] then none
    else
      match splitFirst '=' nv with
      | none => none
      | some (n, v) =>
        if v = [] then none
        else
          some (unquote (strOfList (n.map (fun c => if c = '+' then ' ' else c))),
                unquote (strOfList (v.map (fun c => if c = '+' then ' ' else c)))))

/-- `urllib.parse.urlencode` with `doseq=True` on string-valued pairs (the
only shape `with_utm` builds): `quote_plus` each side, join with `&`. -/
def urlencode (query : List (String × String)) : String :=
  String.intercalate "&" (query.map (fun p => quote_plus p.1 ++ "=" ++ quote_plus p.2))

/-- The `if v` filter of the dict comprehension in `with_utm`
(generator.py): keep only pairs whose value is present and truthy. -/
def truthyPairs : List (String × Option String) → List (String × String)
  | [] => []
  | (k, some v) :: rest =>
    if v = "" then truthyPairs rest else (k, v) :: truthyPairs rest
  | (_, none) :: rest => truthyPairs rest

/-- The filtered UTM overlay of `with_utm` (generator.py): the four
components renamed, keeping only truthy (non-empty, present) values. -/
def utmParams (utm : List (String × String)) : List (String × String) :=
  truthyPairs
    [("utm_source", dictLookup utm "source"),
     ("utm_medium", dictLookup utm "medium"),
     ("utm_campaign", dictLookup utm "campaign"),
     ("utm_content", dictLookup utm "content")]

/-- The merged parameter dict of `with_utm` (generator.py):
`{**query, **utm_renamed_filtered, **extra}`. -/
def mergeParams (queryPairs utm extra : List (String × String)) :
    List (String × String) :=
  dictInsertAll (dictInsertAll (dictInsertAll [] queryPairs) (utmParams utm)) extra

/-- `with_utm` (generator.py): `utm` and `extra` are the caller's mappings
(`None` defaults to the empty mapping at the call boundary).  A
`ValueError` raised by `urlparse` propagates out of the filter, modelled
as `Except.error`. -/
def with_utm (url : String) (utm extra : List (String × String)) :
    Except String String :=
  if url = "" then Except.ok url
  else
    match urlparse url with
    | Except.error e => Except.error e
    | Except.ok parsed =>
      Except.ok (urlunparse { parsed with
        query := urlencode (mergeParams (parse_qsl parsed.query) utm extra) })

/- ================================================================== -/
/- Theorems                                                           -/
/- ================================================================== -/

/- Shared helper lemmas about the Python dict model.                  -/

theorem dictLookup_dictInsert (m : List (String × α)) (k k' : String) (v : α) :
    dictLookup (dictInsert m k v) k' = if k = k' then some v else dictLookup m k' := by
  induction m with
  | nil => simp [dictInsert, dictLookup]
  | cons p rest ih =>
    obtain ⟨a, b⟩ := p
    by_cases h1 : a = k
    · subst h1
      simp only [dictInsert, if_pos rfl]
      by_cases h2 : a = k' <;> simp [dictLookup, h2]
    · simp only [dictInsert, if_neg h1]
      by_cases h2 : a = k'
      · subst h2
        have hkk : ¬(k = a) := fun h => h1 h.symm
        simp [dictLookup, hkk]
      · simp [dictLookup, h2, ih]

theorem lastVal_gen (k : String) (ps : List (String × α)) (a : Option α) :
    ps.foldl (fun acc p => if p.1 = k then some p.2 else acc) a =
      orElseO (lastVal ps k) a := by
  induction ps generalizing a with
  | nil => simp [lastVal, orElseO]
  | cons p ps ih =>
    have h1 : lastVal (p :: ps) k =
        orElseO (lastVal ps k) (if p.1 = k then some p.2 else none) := by
      simp only [lastVal, List.foldl_cons]
      exact ih _
    simp only [List.foldl_cons]
    rw [ih, h1]
    cases h : lastVal ps k <;> by_cases hp : p.1 = k <;> simp [orElseO, hp, h]

theorem lastVal_cons (k : String) (p : String × α) (ps : List (String × α)) :
    lastVal (p :: ps) k = orElseO (lastVal ps k) (if p.1 = k then some p.2 else none) := by
  simp only [lastVal, List.foldl_cons]
  exact lastVal_gen k ps _

theorem dictLookup_dictInsertAll (k : String) (ps : List (String × α)) :
    ∀ m, dictLookup (dictInsertAll m ps) k = orElseO (lastVal ps k) (dictLookup m k) := by
  induction ps with
  | nil => intro m; simp [dictInsertAll, lastVal, orElseO]
  | cons p ps ih =>
    intro m
    simp only [dictInsertAll, List.foldl_cons] at *
    rw [ih (dictInsert m p.1 p.2), lastVal_cons, dictLookup_dictInsert]
    cases h : lastVal ps k <;> by_cases hp : p.1 = k <;> simp [orElseO, hp, h]

/-- Claim C8: an override entry with no `=` character is silently skipped:
`apply_overrides` is total (no error) and an override list all of whose
entries lack `=` leaves the configuration tree exactly unchanged. -/
theorem C8_no_equals_skipped :
    ∀ (data : List (String × Yaml)) (overrides : List String),
      (∀ item ∈ overrides, item.data.contains '=' = false) →
      apply_overrides data overrides = data := by
  intro data overrides
  induction overrides generalizing data with
  | nil => intro _; rfl
  | cons item os ih =>
    intro h
    have hitem := h item (by simp)
    simp only [apply_overrides, List.foldl_cons, applyOverrideStep, hitem]
    simp only [Bool.false_eq_true, if_false]
    exact ih data (fun i hi => h i (List.mem_cons_of_mem _ hi))

/-- Witness for C8 at a concrete tree and entry. -/
theorem C8_no_equals_skipped_witness :
    apply_overrides [("k", Yaml.str "v")] ["abc"] = [("k", Yaml.str "v")] :=
  C8_no_equals_skipped [("k", Yaml.str "v")] ["abc"] (by decide)

/-- Claim C6: when the configuration file or the template root is missing,
`main` prints a diagnostic to stderr and returns exit status 2, with no
configuration loaded, no overrides applied, and no files written. -/
theorem C6_missing_inputs_exit_2 :
    (∀ (w : World) (args : Args), w.productExists = false →
      mainRun w args =
        Except.ok ⟨2, ["ERROR: product file not found: " ++ args.product], []⟩)
    ∧ (∀ (w : World) (args : Args), w.productExists = true → w.templatesExists = false →
      mainRun w args =
        Except.ok ⟨2, ["ERROR: templates dir not found: " ++ args.templates], []⟩) := by
  constructor
  · intro w args h
    simp [mainRun, h]
  · intro w args h1 h2
    simp [mainRun, h1, h2]

/-- Witness for C6: a concrete world with a missing product file exits 2
with nothing written. -/
theorem C6_missing_inputs_exit_2_witness :
    mainRun ⟨false, true, Yaml.null, ["a.j2"], fun _ _ => "x"⟩ ⟨"p.yaml", "tpl", "out", []⟩ =
      Except.ok ⟨2, ["ERROR: product file not found: " ++ "p.yaml"], []⟩ :=
  C6_missing_inputs_exit_2.1 ⟨false, true, Yaml.null, ["a.j2"], fun _ _ => "x"⟩
    ⟨"p.yaml", "tpl", "out", []⟩ rfl

/-- Claim C9: a run is a deterministic function of its inputs — two worlds
agreeing on the configuration parse result, the template files, the path
existence checks, and the (deterministic) renderer produce identical run
results, in particular byte-identical written files. -/
theorem C9_deterministic :
    ∀ (w1 w2 : World) (args : Args),
      w1.productExists = w2.productExists →
      w1.templatesExists = w2.templatesExists →
      w1.productDoc = w2.productDoc →
      w1.templateFiles = w2.templateFiles →
      w1.render = w2.render →
      mainRun w1 args = mainRun w2 args := by
  intro w1 w2 args h1 h2 h3 h4 h5
  simp only [mainRun, h1, h2, h3, h4, h5]

/-- Witness for C9 at two (equal-input) concrete worlds. -/
theorem C9_deterministic_witness :
    mainRun ⟨true, true, Yaml.map [], ["a.j2"], fun _ _ => "x"⟩ ⟨"p", "t", "o", []⟩ =
      mainRun ⟨true, true, Yaml.map [], ["a.j2"], fun _ _ => "x"⟩ ⟨"p", "t", "o", []⟩ :=
  C9_deterministic _ _ _ rfl rfl rfl rfl rfl

/-- Counterexample to C7 as stated: the document `[1]` parses successfully,
yet the loader returns it unchanged — a list, not a mapping. -/
theorem C7_counterexample :
    isMap (load_yaml (Yaml.seq [Yaml.int 1])) = false := rfl

/-- Claim C7 (amended): the loader returns the parsed document when it is
truthy and an empty mapping otherwise; hence a document that parses to a
mapping yields a mapping, and an empty or absent document yields an empty
mapping rather than null.  (As stated the claim fails: a truthy non-mapping
document, e.g. a YAML list, is returned as-is.) -/
theorem C7_load_yaml_amended :
    (∀ d, pyTruthy d = true → load_yaml d = d)
    ∧ (∀ d, pyTruthy d = false → load_yaml d = Yaml.map [])
    ∧ (∀ m, isMap (load_yaml (Yaml.map m)) = true)
    ∧ load_yaml Yaml.null = Yaml.map [] := by
  refine ⟨?_, ?_, ?_, rfl⟩
  · intro d h; simp [load_yaml, h]
  · intro d h; simp [load_yaml, h]
  · intro m; cases m <;> simp [load_yaml, pyTruthy, isMap]

/-- Witness for C7 (amended) at concrete documents. -/
theorem C7_load_yaml_amended_witness :
    load_yaml (Yaml.map [("a", Yaml.int 1)]) = Yaml.map [("a", Yaml.int 1)] ∧
    load_yaml (Yaml.str "") = Yaml.map [] :=
  ⟨C7_load_yaml_amended.1 _ rfl, C7_load_yaml_amended.2.1 _ rfl⟩

/-- Counterexample to C4 as stated: for the date 0999-01-01 — a valid
Python `date`, whose year lies within `MINYEAR = 1` and `MAXYEAR = 9999` —
the filter returns `"999"`, a three-character string, not the 4-digit
year. -/
theorem C4_counterexample :
    to_year (PyVal.pdate 999 1 1) = "999" ∧
    (to_year (PyVal.pdate 999 1 1)).length = 3 ∧
    to_year (PyVal.pdate 999 1 1) ≠ "0999" ∧
    (1 ≤ 999 ∧ 999 ≤ 9999) := by
  refine ⟨rfl, rfl, ?_, by decide⟩
  decide

/-- Claim C4 (amended): `year` never raises (it is total); on a date or
datetime it returns `str(value.year)` — the year as an unpadded decimal
string, 4 digits exactly when the year has 4 digits; on a string whose
first four characters are ASCII digits it returns those four characters;
on every other input it returns the empty string.  In particular
`year("2024-05-01") = "2024"` and `year(42) = ""`. -/
theorem C4_to_year_amended :
    (to_year (PyVal.pstr "2024-05-01") = "2024")
    ∧ (to_year (PyVal.pint 42) = "")
    ∧ (∀ y m d, to_year (PyVal.pdate y m d) = toString y)
    ∧ (∀ y m d hh mi ss, to_year (PyVal.pdatetime y m d hh mi ss) = toString y)
    ∧ (∀ s : String, 4 ≤ s.data.length → (s.data.take 4).all isPyDigit = true →
        to_year (PyVal.pstr s) = strOfList (s.data.take 4))
    ∧ (∀ s : String, ¬(4 ≤ s.data.length ∧ (s.data.take 4).all isPyDigit = true) →
        to_year (PyVal.pstr s) = "")
    ∧ (∀ n : Int, to_year (PyVal.pint n) = "")
    ∧ to_year PyVal.pnone = "" := by
  refine ⟨rfl, rfl, fun _ _ _ => rfl, fun _ _ _ _ _ _ => rfl, ?_, ?_, fun _ => rfl, rfl⟩
  · intro s h1 h2
    simp only [to_year]
    rw [if_pos ⟨h1, h2⟩]
  · intro s h
    simp only [to_year]
    rw [if_neg h]

/-- Witness for C4 (amended) at a concrete digit string. -/
theorem C4_to_year_amended_witness :
    to_year (PyVal.pstr "20245") = strOfList ("20245".data.take 4) ∧
    to_year (PyVal.pstr "20a") = "" :=
  ⟨C4_to_year_amended.2.2.2.2.1 "20245" (by decide) (by decide),
   C4_to_year_amended.2.2.2.2.2.1 "20a" (by decide)⟩

/- Helper lemmas about dotted-path updates.                            -/

theorem pySplitOn_ne_nil (sep : Char) (l : List Char) : pySplitOn sep l ≠ [] := by
  cases l with
  | nil => simp [pySplitOn]
  | cons c rest =>
    cases h : pySplitOn sep rest <;> by_cases hc : c = sep <;> simp [pySplitOn, hc, h]

theorem getPath_setDeepGo (v : String) :
    ∀ (parts : List String) (m : List (String × Yaml)), parts ≠ [] →
      getPath (setDeepGo m parts v) parts = some (Yaml.str v) := by
  intro parts
  induction parts with
  | nil => intro m h; exact absurd rfl h
  | cons k rest ih =>
    intro m _
    cases rest with
    | nil => simp [setDeepGo, getPath, dictLookup_dictInsert]
    | cons k2 r2 =>
      simp only [setDeepGo, getPath]
      rw [dictLookup_dictInsert]
      simp only [if_pos rfl]
      exact ih _ (by simp)

theorem getPath_setDeepGo_empty (v : String) :
    ∀ (parts p : List String), pathDiverges parts p = true →
      getPath (setDeepGo [] parts v) p = none := by
  intro parts
  induction parts with
  | nil => intro p h; simp [pathDiverges] at h
  | cons k rest ih =>
    intro p h
    cases p with
    | nil => simp [pathDiverges] at h
    | cons k' ps =>
      by_cases hk : k = k'
      · subst hk
        simp only [pathDiverges, if_pos rfl] at h
        cases rest with
        | nil => simp [pathDiverges] at h
        | cons k2 r2 =>
          cases ps with
          | nil => simp [pathDiverges] at h
          | cons q qs =>
            simp only [setDeepGo, getPath, dictInsert, dictLookup, if_pos rfl]
            exact ih _ h
      · cases rest with
        | nil =>
          cases ps with
          | nil => simp [setDeepGo, getPath, dictInsert, dictLookup, hk]
          | cons q qs => simp [setDeepGo, getPath, dictInsert, dictLookup, hk]
        | cons k2 r2 =>
          cases ps with
          | nil => simp [setDeepGo, getPath, dictInsert, dictLookup, hk]
          | cons q qs => simp [setDeepGo, getPath, dictInsert, dictLookup, hk]

theorem getPath_setDeepGo_frame (v : String) :
    ∀ (parts p : List String) (m : List (String × Yaml)), pathDiverges parts p = true →
      getPath (setDeepGo m parts v) p = getPath m p := by
  intro parts
  induction parts with
  | nil => intro p m h; simp [pathDiverges] at h
  | cons k rest ih =>
    intro p m h
    cases p with
    | nil => simp [pathDiverges] at h
    | cons k' ps =>
      by_cases hk : k = k'
      · subst hk
        simp only [pathDiverges, if_pos rfl] at h
        cases rest with
        | nil => simp [pathDiverges] at h
        | cons k2 r2 =>
          cases ps with
          | nil => simp [pathDiverges] at h
          | cons q qs =>
            simp only [setDeepGo, getPath]
            rw [dictLookup_dictInsert]
            simp only [if_pos rfl]
            have he := getPath_setDeepGo_empty v (k2 :: r2) (q :: qs) h
            cases hm : dictLookup m k with
            | none => simp only [hm]; exact he
            | some yv =>
              cases yv <;> simp only [hm] <;>
                first
                  | exact he
                  | exact ih _ _ h
      · -- first segments differ: the updated key is not on p
        cases ps with
        | nil =>
          cases rest with
          | nil => simp [setDeepGo, getPath, dictLookup_dictInsert, hk]
          | cons k2 r2 => simp [setDeepGo, getPath, dictLookup_dictInsert, hk]
        | cons q qs =>
          cases rest with
          | nil => simp [setDeepGo, getPath, dictLookup_dictInsert, hk]
          | cons k2 r2 => simp [setDeepGo, getPath, dictLookup_dictInsert, hk]

/-- Claim C2: `apply_overrides` applies each `=`-entry in order, walking
the dotted path, materialising fresh empty mappings over missing or
non-mapping intermediates, and storing the right-hand side verbatim as a
string at the final segment; reading the written path back always yields
that string (so later writes to the same path win).  In particular
`"a.b.c=x"` on an empty tree gives `{a: {b: {c: "x"}}}`, and `"a=1"` then
`"a.b=2"` gives `{a: {b: "2"}}` (destructive overwrite). -/
theorem C2_apply_overrides_deep_set :
    (apply_overrides [] ["a.b.c=x"] =
      [("a", Yaml.map [("b", Yaml.map [("c", Yaml.str "x")])])])
    ∧ (apply_overrides [] ["a=1", "a.b=2"] = [("a", Yaml.map [("b", Yaml.str "2")])])
    ∧ (∀ (m : List (String × Yaml)) (path v : String),
        getPath (set_deep_value m path v) (pySplit path '.') = some (Yaml.str v))
    ∧ (∀ (m : List (String × Yaml)) (path v1 v2 : String),
        getPath (set_deep_value (set_deep_value m path v1) path v2)
          (pySplit path '.') = some (Yaml.str v2)) := by
  have hne : ∀ path : String, pySplit path '.' ≠ [] := by
    intro path hc
    exact pySplitOn_ne_nil '.' path.data (by simpa [pySplit] using hc)
  refine ⟨rfl, rfl, ?_, ?_⟩
  · intro m path v
    exact getPath_setDeepGo v _ m (hne path)
  · intro m path v1 v2
    exact getPath_setDeepGo v2 _ _ (hne path)

/-- Counterexample to C10 as stated: under the single override `a.b=1`,
the key `c` at depth 3 is not a segment on the written path `a.b`, yet its
value is destroyed — the write replaces the whole subtree at `a.b` with
the string `"1"`. -/
theorem C10_counterexample :
    getPath [("a", Yaml.map [("b", Yaml.map [("c", Yaml.str "old")])])]
        ["a", "b", "c"] = some (Yaml.str "old") ∧
    getPath (apply_overrides
        [("a", Yaml.map [("b", Yaml.map [("c", Yaml.str "old")])])] ["a.b=1"])
        ["a", "b", "c"] = none := by
  exact ⟨rfl, rfl⟩

/-- Claim C10 (amended, frame): `apply_overrides` mutates only keys lying
on or below the dotted paths of its applied entries — reading back any
path that diverges from every applied override path (is neither a prefix
nor an extension of one) gives exactly the value it had before.  (As
stated the claim also protects keys strictly below a written path, but the
write destroys those: see the counterexample.) -/
theorem C10_override_frame :
    ∀ (overrides : List String) (data : List (String × Yaml)) (p : List String),
      (∀ item ∈ overrides, ∀ parts, overridePath item = some parts →
        pathDiverges parts p = true) →
      getPath (apply_overrides data overrides) p = getPath data p := by
  intro overrides
  induction overrides with
  | nil => intro data p _; rfl
  | cons item os ih =>
    intro data p h
    have hos : ∀ i ∈ os, ∀ parts, overridePath i = some parts →
        pathDiverges parts p = true :=
      fun i hi => h i (List.mem_cons_of_mem _ hi)
    have hstep : apply_overrides data (item :: os) =
        apply_overrides (applyOverrideStep data item) os := rfl
    rw [hstep, ih (applyOverrideStep data item) p hos]
    by_cases hc : item.data.contains '='
    · cases hs : splitFirst '=' item.data with
      | none => simp [applyOverrideStep, hc, hs]
      | some pv =>
        obtain ⟨path, value⟩ := pv
        have hmem : '=' ∈ item.data := by simpa using hc
        have hov : overridePath item = some (pySplit (pyStrip (strOfList path)) '.') := by
          simp [overridePath, hmem, hs]
        have hdiv := h item (by simp) _ hov
        simp only [applyOverrideStep, hc, if_true, hs]
        exact getPath_setDeepGo_frame (strOfList value) _ p data hdiv
    · have hmem : ¬('=' ∈ item.data) := by simpa using hc
      simp [applyOverrideStep, hmem]

/-- Witness for C10: the override `a.b=1` leaves the sibling key `keep`
untouched. -/
theorem C10_override_frame_witness :
    getPath (apply_overrides [("keep", Yaml.str "v")] ["a.b=1"]) ["keep"] =
      getPath [("keep", Yaml.str "v")] ["keep"] :=
  C10_override_frame ["a.b=1"] [("keep", Yaml.str "v")] ["keep"]
    (by
      intro item hi parts hp
      have hi' : item = "a.b=1" := by simpa using hi
      subst hi'
      have hcalc : overridePath "a.b=1" = some ["a", "b"] := by decide
      rw [hcalc] at hp
      injection hp with hpe
      subst hpe
      decide)

/- Helper lemmas about stripping and the render loop.                  -/

theorem head?_of_isPrefix {α : Type} {l₁ l₂ : List α} (h : l₁ <+: l₂) (hne : l₁ ≠ []) :
    l₁.head? = l₂.head? := by
  obtain ⟨t, rfl⟩ := h
  cases l₁ with
  | nil => exact absurd rfl hne
  | cons a as => rfl

theorem takeWhile_nil_of_head_false {α : Type} (p : α → Bool) (l : List α)
    (h : ∀ c, l.head? = some c → p c = false) : l.takeWhile p = [] := by
  cases l with
  | nil => rfl
  | cons c cs => simp [List.takeWhile_cons, h c rfl]

theorem head?_dropWhile_false {α : Type} (p : α → Bool) (l : List α) :
    ∀ c, (l.dropWhile p).head? = some c → p c = false := by
  induction l with
  | nil => intro c hc; cases hc
  | cons a as ih =>
    intro c hc
    by_cases hpa : p a = true
    · rw [List.dropWhile_cons_of_pos hpa] at hc
      exact ih c hc
    · rw [List.dropWhile_cons_of_neg hpa] at hc
      have : a = c := by simpa using hc
      subst this
      simpa using hpa

theorem pyStripL_head_not_space (l : List Char) :
    ∀ c, (pyStripL l).head? = some c → isPySpace c = false := by
  intro c hc
  exact head?_dropWhile_false isPySpace _ c hc

theorem pyStripL_rev_head_not_space (l : List Char) :
    ∀ c, (pyStripL l).reverse.head? = some c → isPySpace c = false := by
  intro c hc
  have hsuf : pyStripL l <:+ (l.reverse.dropWhile isPySpace).reverse :=
    List.dropWhile_suffix _
  have hpre : (pyStripL l).reverse <+: l.reverse.dropWhile isPySpace := by
    have h2 := List.reverse_prefix.mpr hsuf
    rwa [List.reverse_reverse] at h2
  have hne : (pyStripL l).reverse ≠ [] := by
    intro h0
    rw [h0] at hc
    cases hc
  have hhead := head?_of_isPrefix hpre hne
  rw [hc] at hhead
  exact head?_dropWhile_false isPySpace l.reverse c hhead.symm

theorem foldl_append_map {α β : Type} (f : α → β) :
    ∀ (l : List α) (acc : List β),
      l.foldl (fun w r => w ++ [f r]) acc = acc ++ l.map f := by
  intro l
  induction l with
  | nil => intro acc; simp
  | cons a as ih => intro acc; simp [ih]

theorem render_all_eq_map (render : String → String) (files : List String)
    (outDir : String) :
    render_all render files outDir =
      (discover_templates files).map
        (fun rel => (target_path_for rel outDir, pyStrip (render rel) ++ "\n")) := by
  simp only [render_all]
  rw [foldl_append_map
    (fun rel => (target_path_for rel outDir, pyStrip (render rel) ++ "\n"))]
  simp

theorem data_append (a b : String) : (a ++ b).data = a.data ++ b.data := by
  cases a; cases b; rfl

/-- Claim C3: each discovered template yields exactly one output, at the
output root joined with the template's relative path with the `.j2` suffix
removed (subdirectories mirrored), whose contents are the rendered text
stripped of surrounding whitespace plus exactly one trailing newline; for a
template root holding `a/b.html.j2` and `c.txt.j2` the outputs are exactly
`<out>/a/b.html` and `<out>/c.txt`.  The last conjunct states the content
shape: exactly one trailing newline and no whitespace at either end of the
stripped body. -/
theorem C3_render_all_outputs :
    (∀ (render : String → String) (files : List String) (outDir : String),
      render_all render files outDir =
        (discover_templates files).map
          (fun rel => (target_path_for rel outDir, pyStrip (render rel) ++ "\n")))
    ∧ (∀ (render : String → String) (outDir : String),
        (render_all render ["a/b.html.j2", "c.txt.j2"] outDir).map Prod.fst =
          [outDir ++ "/" ++ "a/b.html", outDir ++ "/" ++ "c.txt"])
    ∧ (∀ s : String,
        (pyStrip s ++ "\n").data.reverse.takeWhile (fun c => c == '\n') = ['\n']
        ∧ (pyStrip s).data.takeWhile isPySpace = []
        ∧ (pyStrip s).data.reverse.takeWhile isPySpace = []) := by
  refine ⟨render_all_eq_map, fun render outDir => rfl, ?_⟩
  intro s
  refine ⟨?_, ?_, ?_⟩
  · have hd : (pyStrip s ++ "\n").data = pyStripL s.data ++ ['\n'] := by
      rw [data_append]; rfl
    rw [hd, List.reverse_append]
    simp only [List.reverse_cons, List.reverse_nil, List.nil_append,
      List.singleton_append]
    rw [List.takeWhile_cons]
    simp only [beq_self_eq_true, if_true]
    have ht : (pyStripL s.data).reverse.takeWhile (fun c => c == '\n') = [] := by
      apply takeWhile_nil_of_head_false
      intro c hc
      have hns := pyStripL_rev_head_not_space s.data c hc
      cases he : (c == '\n') with
      | false => rfl
      | true =>
        have hcn : c = '\n' := by simpa using he
        subst hcn
        simp [isPySpace] at hns
    rw [ht]
  · exact takeWhile_nil_of_head_false _ _ (pyStripL_head_not_space s.data)
  · exact takeWhile_nil_of_head_false _ _ (pyStripL_rev_head_not_space s.data)

/- Helper lemmas for the path-string order used by the sorter.         -/

theorem listCharLt_irrefl : ∀ l : List Char, listCharLt l l = false := by
  intro l
  induction l with
  | nil => rfl
  | cons c cs ih => simp [listCharLt, ih]

theorem listCharLt_trans : ∀ a b c : List Char,
    listCharLt a b = true → listCharLt b c = true → listCharLt a c = true := by
  intro a
  induction a with
  | nil =>
    intro b c hab hbc
    cases b with
    | nil => simp [listCharLt] at hab
    | cons y ys =>
      cases c with
      | nil => simp [listCharLt] at hbc
      | cons z zs => rfl
  | cons x xs ih =>
    intro b c hab hbc
    cases b with
    | nil => simp [listCharLt] at hab
    | cons y ys =>
      cases c with
      | nil => simp [listCharLt] at hbc
      | cons z zs =>
        have hab' : x < y ∨ (¬x < y ∧ ¬y < x ∧ listCharLt xs ys = true) := by
          by_cases h1 : x < y
          · exact Or.inl h1
          · by_cases h2 : y < x
            · simp [listCharLt, h1, h2] at hab
            · exact Or.inr ⟨h1, h2, by simpa [listCharLt, h1, h2] using hab⟩
        have hbc' : y < z ∨ (¬y < z ∧ ¬z < y ∧ listCharLt ys zs = true) := by
          by_cases h1 : y < z
          · exact Or.inl h1
          · by_cases h2 : z < y
            · simp [listCharLt, h1, h2] at hbc
            · exact Or.inr ⟨h1, h2, by simpa [listCharLt, h1, h2] using hbc⟩
        rcases hab' with h1 | ⟨hn1, hn2, hrec1⟩
        · rcases hbc' with h2 | ⟨hn3, hn4, _⟩
          · simp [listCharLt, lt_trans h1 h2]
          · have hyz : y = z := le_antisymm (not_lt.mp hn4) (not_lt.mp hn3)
            subst hyz
            simp [listCharLt, h1]
        · rcases hbc' with h2 | ⟨hn3, hn4, hrec2⟩
          · have hxy : x = y := le_antisymm (not_lt.mp hn2) (not_lt.mp hn1)
            subst hxy
            simp [listCharLt, h2]
          · have hxy : x = y := le_antisymm (not_lt.mp hn2) (not_lt.mp hn1)
            subst hxy
            simp [listCharLt, hn3, hn4, ih ys zs hrec1 hrec2]

theorem listCharLt_tie : ∀ a b : List Char,
    listCharLt a b = false → listCharLt b a = false → a = b := by
  intro a
  induction a with
  | nil =>
    intro b h1 _
    cases b with
    | nil => rfl
    | cons y ys => simp [listCharLt] at h1
  | cons x xs ih =>
    intro b h1 h2
    cases b with
    | nil => simp [listCharLt] at h2
    | cons y ys =>
      by_cases hxy : x < y
      · simp [listCharLt, hxy] at h1
      · by_cases hyx : y < x
        · simp [listCharLt, hyx] at h2
        · have hx : x = y := le_antisymm (not_lt.mp hyx) (not_lt.mp hxy)
          subst hx
          have h1' : listCharLt xs ys = false := by
            simpa [listCharLt] using h1
          have h2' : listCharLt ys xs = false := by
            simpa [listCharLt] using h2
          rw [ih ys h1' h2']

theorem strTie_eq (b c : String) (h1 : listCharLt b.data c.data = false)
    (h2 : listCharLt c.data b.data = false) : b = c := by
  have h := listCharLt_tie b.data c.data h1 h2
  cases b; cases c
  exact congrArg String.mk h

theorem partsLe_total : ∀ a b : List String, partsLe a b = true ∨ partsLe b a = true := by
  intro a
  induction a with
  | nil => intro b; left; rfl
  | cons x xs ih =>
    intro b
    cases b with
    | nil => right; rfl
    | cons y ys =>
      by_cases hxy : listCharLt x.data y.data = true
      · left; simp [partsLe, hxy]
      · by_cases hyx : listCharLt y.data x.data = true
        · right; simp [partsLe, hyx]
        · rcases ih ys with h | h
          · left; simp [partsLe, hxy, hyx, h]
          · right; simp [partsLe, hyx, hxy, h]

theorem partsLe_trans : ∀ a b c : List String,
    partsLe a b = true → partsLe b c = true → partsLe a c = true := by
  intro a
  induction a with
  | nil => intro b c _ _; rfl
  | cons x xs ih =>
    intro b c hab hbc
    cases b with
    | nil => simp [partsLe] at hab
    | cons y ys =>
      cases c with
      | nil => simp [partsLe] at hbc
      | cons z zs =>
        have hab' : listCharLt x.data y.data = true ∨
            (x = y ∧ partsLe xs ys = true) := by
          by_cases h1 : listCharLt x.data y.data = true
          · exact Or.inl h1
          · by_cases h2 : listCharLt y.data x.data = true
            · simp [partsLe, h1, h2] at hab
            · refine Or.inr ⟨strTie_eq x y ?_ ?_, by simpa [partsLe, h1, h2] using hab⟩
              · simpa using h1
              · simpa using h2
        have hbc' : listCharLt y.data z.data = true ∨
            (y = z ∧ partsLe ys zs = true) := by
          by_cases h1 : listCharLt y.data z.data = true
          · exact Or.inl h1
          · by_cases h2 : listCharLt z.data y.data = true
            · simp [partsLe, h1, h2] at hbc
            · refine Or.inr ⟨strTie_eq y z ?_ ?_, by simpa [partsLe, h1, h2] using hbc⟩
              · simpa using h1
              · simpa using h2
        rcases hab' with h1 | ⟨hxy, hrec1⟩
        · rcases hbc' with h2 | ⟨hyz, _⟩
          · simp [partsLe, listCharLt_trans _ _ _ h1 h2]
          · subst hyz
            simp [partsLe, h1]
        · subst hxy
          rcases hbc' with h2 | ⟨hyz, hrec2⟩
          · simp [partsLe, h2]
          · subst hyz
            simp [partsLe, listCharLt_irrefl, ih ys zs hrec1 hrec2]

theorem pathLe_total (a b : String) : pathLe a b = true ∨ pathLe b a = true :=
  partsLe_total _ _

theorem pathLe_trans (a b c : String) :
    pathLe a b = true → pathLe b c = true → pathLe a c = true :=
  partsLe_trans _ _ _

/-- Counterexample to C5 as stated: a regular file named exactly `".j2"`
has a name ending in `".j2"`, yet `discover_templates` does not return it
(pathlib gives a dotfile an empty suffix). -/
theorem C5_counterexample :
    discover_templates [".j2"] = [] ∧
    ".j2".data <:+ pathNameL ".j2".data := by
  refine ⟨rfl, ⟨[], rfl⟩⟩

/-- Claim C5 (amended): `discover_templates` returns exactly the regular
files whose pathlib suffix is `.j2` — i.e. whose final component ends with
`.j2` and has at least one character before that dot (a file named exactly
`.j2` is excluded) — sorted ascending in the CPython 3.11 path order,
which compares the component tuples (so `emails/welcome.j2` sorts before
`emails-v2/promo.j2`). -/
theorem C5_discover_templates_amended :
    (∀ files, List.Perm (discover_templates files)
        (files.filter (fun p => pathSuffix p = ".j2")))
    ∧ (∀ files, List.Pairwise (fun a b => pathLe a b = true) (discover_templates files))
    ∧ (discover_templates ["emails-v2/promo.j2", "emails/welcome.j2"] =
        ["emails/welcome.j2", "emails-v2/promo.j2"])
    ∧ (∀ p : String, (pathSuffix p = ".j2") ↔ pySuffixL (pathNameL p.data) = ".j2".data)
    ∧ (∀ name : List Char,
        pySuffixL name = ".j2".data ↔ (".j2".data <:+ name ∧ 4 ≤ name.length)) := by
  refine ⟨?_, ?_, rfl, ?_, ?_⟩
  · intro files
    exact List.perm_insertionSort _ _
  · intro files
    haveI ht : IsTotal String (fun a b => pathLe a b = true) := ⟨pathLe_total⟩
    haveI ht2 : IsTrans String (fun a b => pathLe a b = true) :=
      ⟨fun a b c => pathLe_trans a b c⟩
    exact List.sorted_insertionSort _ _
  · intro p
    constructor
    · intro h
      exact congrArg String.data h
    · intro h
      exact congrArg strOfList h
  · intro name
    constructor
    · intro h
      simp only [pySuffixL] at h
      cases hr : rfindIdx '.' name with
      | none => rw [hr] at h; cases h
      | some i =>
        rw [hr] at h
        dsimp only at h
        by_cases hc : 0 < i ∧ i < name.length - 1
        · rw [if_pos hc] at h
          have hlen : name.length - i = 3 := by
            have h2 := congrArg List.length h
            simpa [List.length_drop] using h2
          have h4 : 4 ≤ name.length := by omega
          refine ⟨⟨name.take i, ?_⟩, h4⟩
          have hj : (".j2".data : List Char) = ['.', 'j', '2'] := rfl
          rw [hj, ← h]
          exact List.take_append_drop i name
        · rw [if_neg hc] at h; cases h
    · rintro ⟨⟨t, rfl⟩, h4⟩
      have hlen : (t ++ ".j2".data).length = t.length + 3 := by
        simp [List.length_append]
      have ht1 : 1 ≤ t.length := by
        rw [hlen] at h4
        omega
      have hrev : (t ++ ".j2".data).reverse = '2' :: 'j' :: '.' :: t.reverse := by
        simp [List.reverse_append]
      have hidx : List.findIdx? (fun x => x = '.') (t ++ ".j2".data).reverse = some 2 := by
        rw [hrev]
        rfl
      have hrf : rfindIdx '.' (t ++ ".j2".data) = some t.length := by
        simp only [rfindIdx, hidx, hlen]
        congr 1
      simp only [pySuffixL, hrf]
      rw [if_pos (by rw [hlen]; omega)]
      exact List.drop_left t _

/- Helper lemmas for the with_utm merge.                               -/

theorem orElseO_none (x : Option α) : orElseO x none = x := by
  cases x <;> rfl

theorem truthyPairs_ne_empty :
    ∀ (l : List (String × Option String)) (k v : String),
      (k, v) ∈ truthyPairs l → v ≠ "" := by
  intro l
  induction l with
  | nil => intro k v h; simp [truthyPairs] at h
  | cons p rest ih =>
    intro k v h
    obtain ⟨pk, pv⟩ := p
    cases pv with
    | none =>
      rw [show truthyPairs ((pk, none) :: rest) = truthyPairs rest from rfl] at h
      exact ih k v h
    | some w =>
      by_cases hw : w = ""
      · have hstep : truthyPairs ((pk, some w) :: rest) = truthyPairs rest := by
          simp [truthyPairs, hw]
        rw [hstep] at h
        exact ih k v h
      · have hstep : truthyPairs ((pk, some w) :: rest) =
            (pk, w) :: truthyPairs rest := by
          simp [truthyPairs, hw]
        rw [hstep] at h
        rcases List.mem_cons.mp h with he | hm
        · have : v = w := by
            have := congrArg Prod.snd he
            simpa using this
          rw [this]
          exact hw
        · exact ih k v hm

theorem dictLookup_mergeParams (q utm extra : List (String × String)) (k : String) :
    dictLookup (mergeParams q utm extra) k =
      orElseO (lastVal extra k) (orElseO (lastVal (utmParams utm) k) (lastVal q k)) := by
  simp only [mergeParams]
  rw [dictLookup_dictInsertAll, dictLookup_dictInsertAll, dictLookup_dictInsertAll]
  rw [show dictLookup ([] : List (String × String)) k = none from rfl]
  rw [orElseO_none]

/-- Counterexample to C1 as stated: the claim's algorithm (parse, merge,
re-encode, reassemble) is asserted for every URL string, but (a) for the
empty URL the code returns it unchanged without parsing, whereas parsing
and reassembling the empty URL with a non-empty UTM mapping yields
`"?utm_source=nl"`, and (b) a URL whose netloc has an unbalanced IPv6
bracket makes `urlsplit` raise `ValueError`, so no URL is reassembled at
all. -/
theorem C1_counterexample :
    with_utm "" [("source", "nl")] [] = Except.ok "" ∧
    (urlparse "").map (fun parsed =>
      urlunparse { parsed with
        query := urlencode (mergeParams (parse_qsl parsed.query)
          [("source", "nl")] []) }) = Except.ok "?utm_source=nl" ∧
    ("" : String) ≠ "?utm_source=nl" ∧
    with_utm "http://[abc/p?q=1" [("source", "nl")] [] =
      Except.error "Invalid IPv6 URL" := by
  refine ⟨rfl, rfl, by decide, rfl⟩

/-- Claim C1 (amended): for a non-empty URL, `with_utm` parses it, merges its
existing query parameters with the renamed, truthiness-filtered UTM
components and then `extra` (highest precedence, dict-overlay semantics),
re-encodes, and reassembles around the other parsed components (scheme,
netloc, path, params, fragment untouched); the merged dict's lookup is
`extra`, then UTM, then the original query (last value written wins), and
a UTM component is only ever included with a non-empty value.  In
particular the spec's example URL is produced verbatim, with `q=1` first
and the two UTM parameters following in order.  A `ValueError` raised by
`urlsplit` (unbalanced IPv6 bracket, invalid bracketed host, NFKC netloc
check) propagates, shown concretely for an unbalanced bracket.  (As
stated, with the parse/reassemble behaviour asserted for every URL string,
the claim fails at the empty URL, which the code returns unchanged without
parsing, and at URLs on which `urlsplit` raises.) -/
theorem C1_with_utm_spec :
    (with_utm "https://x.com/p?q=1" [("source", "nl"), ("medium", "email")] [] =
      Except.ok "https://x.com/p?q=1&utm_source=nl&utm_medium=email")
    ∧ (∀ (url : String) (utm extra : List (String × String)), url ≠ "" →
        with_utm url utm extra =
          (urlparse url).map (fun parsed =>
            urlunparse { parsed with
              query := urlencode (mergeParams (parse_qsl parsed.query) utm extra) }))
    ∧ (with_utm "http://[abc/p?q=1" [("source", "nl")] [] =
        Except.error "Invalid IPv6 URL")
    ∧ (∀ (q utm extra : List (String × String)) (k : String),
        dictLookup (mergeParams q utm extra) k =
          orElseO (lastVal extra k) (orElseO (lastVal (utmParams utm) k) (lastVal q k)))
    ∧ (∀ (utm : List (String × String)) (k v : String),
        (k, v) ∈ utmParams utm → v ≠ "") := by
  refine ⟨rfl, ?_, rfl, ?_, ?_⟩
  · intro url utm extra h
    simp only [with_utm]
    rw [if_neg h]
    cases hp : urlparse url <;> simp [hp, Except.map]
  · intro q utm extra k
    exact dictLookup_mergeParams q utm extra k
  · intro utm k v h
    exact truthyPairs_ne_empty _ k v h

/-- Witness for C1 at concrete inputs: the decomposition at a non-empty
URL, and the only-truthy rule at a present, non-empty UTM source. -/
theorem C1_with_utm_spec_witness :
    (with_utm "https://x.com/p?q=1" [("source", "nl")] [("a", "b c")] =
      (urlparse "https://x.com/p?q=1").map (fun parsed =>
        urlunparse { parsed with
          query := urlencode (mergeParams (parse_qsl parsed.query)
            [("source", "nl")] [("a", "b c")]) }))
    ∧ ("nl" : String) ≠ "" :=
  ⟨C1_with_utm_spec.2.1 "https://x.com/p?q=1" [("source", "nl")] [("a", "b c")] (by decide),
   C1_with_utm_spec.2.2.2.2 [("source", "nl")] "utm_source" "nl" (by decide)⟩
